import Mathlib

/-!
Verification of the residual-to-filter compiler (`src/compile/mapping.js` and
`src/compile/residual-to-filter.js`): a shallow embedding of the JavaScript
source into Lean, followed by theorems about the embedded functions.

JavaScript values are modelled by the inductive type `JVal`.  An absent object
property (JS `undefined`) is modelled by `Option.none` at property-lookup
sites.  Numbers are modelled as integers: the compiler performs no arithmetic
on them, they only flow through as opaque values and truthiness tests.
Statements that a JS function `throw`s are modelled by `Except.error`.
-/

/-- A JavaScript value: `null`, boolean, number, string, array or plain object.
Object properties are kept in insertion order with distinct keys, matching the
objects the compiler actually receives. -/
inductive JVal : Type where
  | null : JVal
  | bool : Bool → JVal
  | num : Int → JVal
  | str : String → JVal
  | arr : List JVal → JVal
  | obj : List (String × JVal) → JVal

/-- First-match property lookup in an object's field list. -/
def lookupField : List (String × JVal) → String → Option JVal
  | [], _ => none
  | (k, v) :: rest, key => if k = key then some v else lookupField rest key

/-- JS property access `v.key`: `none` models `undefined` (absent property, or
any access on a non-object; the compiler only reads ad-hoc data properties, so
arrays and primitives yield `undefined` for every name it looks up). -/
def getField : JVal → String → Option JVal
  | .obj fs, key => lookupField fs key
  | _, _ => none

/-- JS truthiness: `false`, `0`, `""` and `null` are falsy; arrays and objects
are always truthy. -/
def truthy : JVal → Bool
  | .null => false
  | .bool b => b
  | .num n => n != 0
  | .str s => s ≠ ""
  | .arr _ => true
  | .obj _ => true

/-- Truthiness of a possibly-absent value (`undefined` is falsy). -/
def truthyO : Option JVal → Bool
  | none => false
  | some v => truthy v

/-- The JS `a || b` operator over possibly-absent values: the first operand if
it is truthy, otherwise the second operand. -/
def jsOr (a b : Option JVal) : Option JVal :=
  match a with
  | some v => if truthy v then some v else b
  | none => b

/-- Does the haystack start with the needle?  (Character-list form of
`String.prototype.startsWith`, used so that proofs can compute.) -/
def startsWithL : List Char → List Char → Bool
  | _, [] => true
  | [], _ :: _ => false
  | c :: s, p :: ps => c = p && startsWithL s ps

/-- `String.prototype.startsWith`. -/
def jsStartsWith (s pre : String) : Bool := startsWithL s.data pre.data

/-- Substring containment over character lists. -/
def hasSubstr : List Char → List Char → Bool
  | [], needle => startsWithL [] needle
  | c :: s, needle => startsWithL (c :: s) needle || hasSubstr s needle

/-- `String.prototype.includes`. -/
def jsIncludes (s sub : String) : Bool := hasSubstr s.data sub.data

/-- An OpenSearch filter clause as produced by the compiler:
`{term: {field: value}}`, `{terms: {field: [values]}}` or `{exists: {field}}`. -/
inductive Clause : Type where
  | term : String → JVal → Clause
  | terms : String → List JVal → Clause
  | exists_ : String → Clause

/-- The `must`/`must_not`/`should` triple built by `compileResidual`.  The JS
arrays can also hold the value `null` (pushed by the equality/containment
cases when a side is unresolvable), so each entry is an `Option Clause` with
`none` standing for that JS `null`. -/
structure ClauseSet : Type where
  must : List (Option Clause)
  must_not : List (Option Clause)
  should : List (Option Clause)

/-- The fresh `{must: [], must_not: [], should: []}` accumulator. -/
def emptyClauseSet : ClauseSet := ⟨[], [], []⟩

/-- `mergeResults(target, source)` from mapping.js: appends each of the three
clause arrays of `source` onto `target` (the JS `length > 0` guards before
each push are observationally no-ops). -/
def mergeResults (target source : ClauseSet) : ClauseSet :=
  { must := target.must ++ source.must
    must_not := target.must_not ++ source.must_not
    should := target.should ++ source.should }

/-- Strips one leading `resource.` from an attribute path, modelling the
anchored `attrPath.replace(/^resource\./, '')` in `mapAttributeToField`. -/
def stripResource (p : String) : String :=
  match p.data with
  | 'r' :: 'e' :: 's' :: 'o' :: 'u' :: 'r' :: 'c' :: 'e' :: '.' :: rest => String.mk rest
  | _ => p

/-- `mapAttributeToField(attrPath)` from mapping.js: strip a leading
`resource.` prefix, then look up the fixed logical-to-physical field table,
falling back to the stripped name itself. -/
def mapAttributeToField (attrPath : String) : String :=
  let field := stripResource attrPath
  if field = "tenant" then "tenant_id"
  else if field = "customer_readers_team" then "customer_readers_team_id"
  else if field = "employee_readers_team" then "employee_readers_team_id"
  else if field = "doc" then "doc_id"
  else if field = "classification" then "classification"
  else field

mutual
/-- JS string coercion (template-literal interpolation) of a value.
Only `extractAttributePath` uses this, to build `` `${base}.${attr}` ``. -/
def jsToString : JVal → String
  | .null => "null"
  | .bool b => if b then "true" else "false"
  | .num n => toString n
  | .str s => s
  | .arr xs => jsToStringList xs
  | .obj _ => "[object Object]"

/-- JS `Array.prototype.toString`: elements joined with commas. -/
def jsToStringList : List JVal → String
  | [] => ""
  | [x] => jsToString x
  | x :: y :: rest => jsToString x ++ "," ++ jsToStringList (y :: rest)
end

/-- String coercion of a possibly-absent value (`undefined` prints as such). -/
def jsToStringO : Option JVal → String
  | none => "undefined"
  | some v => jsToString v

/-- `extractAttributePath(expr)` from mapping.js.  Returns the JS value the
function returns: `null`, the string itself when it already starts with
`resource.` or `principal.`, the interpolated `` `${base}.${attr}` `` string,
or the raw (possibly non-string!) `path` property. -/
def extractAttributePath (expr : Option JVal) : JVal :=
  match expr with
  | some (.str s) =>
      if jsStartsWith s "resource." || jsStartsWith s "principal." then .str s else .null
  | some (.obj fs) =>
      let a := jsOr (lookupField fs "attr") (lookupField fs "attribute")
      if truthyO a then
        .str (jsToStringO (jsOr (lookupField fs "base") (some (.str "resource")))
              ++ "." ++ jsToStringO a)
      else
        match lookupField fs "path" with
        | some p => if truthy p then p else .null
        | none => .null
  | _ => .null
  -- arrays reach the `typeof expr === 'object'` branch in JS, but have no
  -- `attr`/`attribute`/`path` properties, so they also fall through to `null`.

/-- `extractValue(expr)` from mapping.js: literal extraction; returns JS
`null` when nothing applies. -/
def extractValue (expr : Option JVal) : JVal :=
  match expr with
  | none => .null
  | some .null => .null
  | some (.str s) => .str s
  | some (.num n) => .num n
  | some (.bool b) => .bool b
  | some (.arr _) => .null
  -- an array enters the object branch in JS but has none of the properties
  -- probed there, so the function returns null for it.
  | some (.obj fs) =>
      match lookupField fs "value" with
      | some v => v
      | none =>
        match lookupField fs "literal" with
        | some l =>
          if truthy l then l
          else entityFallback fs
        | none => entityFallback fs
where
  /-- The `expr.__entity && expr.id` / `expr.__entity` fallbacks: a truthy
  `id` wins when `__entity` is truthy, otherwise a truthy `__entity` is
  returned on its own. -/
  entityFallback (fs : List (String × JVal)) : JVal :=
    match lookupField fs "__entity" with
    | some e =>
      if truthy e then
        match lookupField fs "id" with
        | some i => if truthy i then i else e
        | none => e
      else .null
    | none => .null

/-- The string carried by a JS value when it is a string (strict `===`
comparisons against string literals only succeed on strings). -/
def strOf : Option JVal → Option String
  | some (.str s) => some s
  | _ => none

/-- The operator of an expression node: `expr.op || expr.operator || expr.kind`. -/
def opValOf (e : JVal) : Option JVal :=
  jsOr (jsOr (getField e "op") (getField e "operator")) (getField e "kind")

/-- The operator as a string, when it is one (the `switch` in
`compileExpression` only matches string operators). -/
def opStrOf (e : JVal) : Option String := strOf (opValOf e)

/-- `expr.left || expr.lhs`. -/
def leftValOf (e : JVal) : Option JVal := jsOr (getField e "left") (getField e "lhs")

/-- `expr.right || expr.rhs`. -/
def rightValOf (e : JVal) : Option JVal := jsOr (getField e "right") (getField e "rhs")

/-- `expr.children || expr.args`. -/
def childrenValOf (e : JVal) : Option JVal :=
  jsOr (getField e "children") (getField e "args")

/-- `compileEquality(expr)` from mapping.js.  Returns the pushed entry:
`none` models the JS `null` returned when the left side yields no attribute
path.  A truthy non-string attribute path (a non-string `path` property)
makes the JS `attrPath.replace` call throw. -/
def compileEquality (e : JVal) : Except String (Option Clause) :=
  let attrPath := extractAttributePath (leftValOf e)
  let value := extractValue (rightValOf e)
  if truthy attrPath then
    match attrPath with
    | .str s =>
        let fieldName := mapAttributeToField s
        match value with
        | .null => .ok (some (.exists_ fieldName))
        | v => .ok (some (.term fieldName v))
    | _ => .error "TypeError: attrPath.replace is not a function"
  else .ok none

/-- `compileContains(expr)` from mapping.js.  (`leftPath` is computed in the
source but never used.)  Only a member side that is a string starting with
`resource.` produces a clause; a truthy non-string member path makes the JS
`rightPath.startsWith` call throw; everything else returns JS `null`. -/
def compileContains (e : JVal) : Except String (Option Clause) :=
  let rightPath := extractAttributePath (rightValOf e)
  if truthy rightPath then
    match rightPath with
    | .str s =>
        if jsStartsWith s "resource." then
          let fieldName := mapAttributeToField s
          match extractValue (leftValOf e) with
          | .arr vs => .ok (some (.terms fieldName vs))
          | v => if truthy v then .ok (some (.term fieldName v)) else .ok none
        else .ok none
    | _ => .error "TypeError: rightPath.startsWith is not a function"
  else .ok none

/-- The message of the `TypeError` raised by `for (const child of children)`
when `children` is truthy but not iterable. -/
def iterErr : String := "TypeError: children is not iterable"

theorem lookupField_sizeOf {fs : List (String × JVal)} {key : String} {v : JVal}
    (h : lookupField fs key = some v) : sizeOf v < sizeOf fs := by
  induction fs with
  | nil => simp [lookupField] at h
  | cons p rest ih =>
    obtain ⟨k, w⟩ := p
    simp only [lookupField] at h
    split at h
    · cases h
      simp
      omega
    · have := ih h
      simp
      omega

theorem getField_sizeOf {e : JVal} {key : String} {v : JVal}
    (h : getField e key = some v) : sizeOf v < sizeOf e := by
  cases e <;> simp [getField] at h
  case obj fs =>
    have := lookupField_sizeOf h
    simp
    omega

theorem jsOr_eq_some {a b : Option JVal} {v : JVal}
    (h : jsOr a b = some v) : a = some v ∨ b = some v := by
  unfold jsOr at h
  split at h
  · split at h
    · exact Or.inl h
    · exact Or.inr h
  · exact Or.inr h

theorem childrenValOf_sizeOf {e v : JVal}
    (h : childrenValOf e = some v) : sizeOf v < sizeOf e := by
  rcases jsOr_eq_some h with h' | h' <;> exact getField_sizeOf h'

/-- The `!expr || typeof expr !== 'object'` guard of `compileExpression`:
only (always-truthy) objects and arrays pass it. -/
def isObjectLike : JVal → Bool
  | .obj _ => true
  | .arr _ => true
  | _ => false

mutual
/-- `compileExpression(expr, result)` from mapping.js.  Non-objects fall out
of the `!expr || typeof expr !== 'object'` guard and return the accumulator;
arrays pass the guard but have no operator property, so they hit the default
case and also return the accumulator unchanged. -/
def compileExpression (e : JVal) (result : ClauseSet) : Except String ClauseSet :=
  if isObjectLike e then
    let op := opStrOf e
    if op = some "and" ∨ op = some "&&" then
      match h : childrenValOf e with
      | some (.arr xs) => andLoop xs result
      | some (.str _) => .ok result
      -- a string is iterable: each character is a one-character string, a
      -- non-object, so each iteration merges an empty child result.
      | some (.bool b) => if b then .error iterErr else .ok result
      | some (.num n) => if n != 0 then .error iterErr else .ok result
      | some (.obj _) => .error iterErr
      | some .null => .ok result
      | none => .ok result
    else if op = some "or" ∨ op = some "||" then
      match h : childrenValOf e with
      | some (.arr xs) =>
          match orCollect xs [] with
          | .ok sc =>
              .ok (if sc.length > 0 then { result with should := result.should ++ sc }
                   else result)
          | .error msg => .error msg
      | some (.str _) => .ok result
      -- character children are non-objects: their `must` stays empty, so no
      -- `should` clause is collected and the accumulator is unchanged.
      | some (.bool b) => if b then .error iterErr else .ok result
      | some (.num n) => if n != 0 then .error iterErr else .ok result
      | some (.obj _) => .error iterErr
      | some .null => .ok result
      | none => .ok result
    else if op = some "==" ∨ op = some "eq" then
      match compileEquality e with
      | .ok c => .ok { result with must := result.must ++ [c] }
      | .error msg => .error msg
    else if op = some "!=" ∨ op = some "ne" then
      match compileEquality e with
      | .ok c => .ok { result with must_not := result.must_not ++ [c] }
      | .error msg => .error msg
    else if op = some "in" ∨ op = some "contains" then
      match compileContains e with
      | .ok c => .ok { result with must := result.must ++ [c] }
      | .error msg => .error msg
    else
      -- default case: with or without an attr/attribute property, the
      -- accumulator is returned unchanged.
      .ok result
  else .ok result
termination_by sizeOf e
decreasing_by
  all_goals simp_wf
  all_goals (have hlt := childrenValOf_sizeOf h; simp at hlt; omega)

/-- The `for (const child of children)` loop of the `and` case: compile each
child into a fresh clause set and merge it into the running result. -/
def andLoop (xs : List JVal) (result : ClauseSet) : Except String ClauseSet :=
  match xs with
  | [] => .ok result
  | x :: rest =>
    match compileExpression x emptyClauseSet with
    | .ok childResult => andLoop rest (mergeResults result childResult)
    | .error msg => .error msg
termination_by sizeOf xs
decreasing_by
  all_goals simp_wf
  all_goals omega

/-- The `for` loop of the `or` case: compile each child into a fresh clause
set and append its `must` entries to the collected `should` clauses (the JS
`length > 0` guard before the push is an observational no-op). -/
def orCollect (xs : List JVal) (acc : List (Option Clause)) :
    Except String (List (Option Clause)) :=
  match xs with
  | [] => .ok acc
  | x :: rest =>
    match compileExpression x emptyClauseSet with
    | .ok childResult => orCollect rest (acc ++ childResult.must)
    | .error msg => .error msg
termination_by sizeOf xs
decreasing_by
  all_goals simp_wf
  all_goals omega
end

/-! ### JSON.parse

`compileResidual` first tries `JSON.parse` on string input.  The parser below
follows the JSON grammar with two simplifications in corners no claim
touches: numeric literals are read as optionally-signed integer digit runs
(texts using fractional or exponent forms, which always compile to clause-free
results on the structured path, take the parse-failure path here instead),
and escape sequences are decoded one character at a time (`\uXXXX` and
escape-validity checks are not modelled).  Fuel bounds the recursion depth;
every level of nesting consumes at least one character before recursing, so
fuel equal to the input length is never exhausted on any input. -/

/-- JSON whitespace. -/
def jsonWs (c : Char) : Bool := c = ' ' || c = '\t' || c = '\n' || c = '\r'

/-- Skip insignificant whitespace. -/
def skipWs (cs : List Char) : List Char := cs.dropWhile jsonWs

/-- Consume an exact literal sequence, returning the rest of the input. -/
def matchLit : List Char → List Char → Option (List Char)
  | [], cs => some cs
  | _ :: _, [] => none
  | l :: ls, c :: cs => if c = l then matchLit ls cs else none

/-- Decode a single-character escape (`\uXXXX` left undecoded). -/
def escChar (e : Char) : Char :=
  if e = 'n' then '\n'
  else if e = 't' then '\t'
  else if e = 'r' then '\r'
  else if e = 'b' then Char.ofNat 8
  else if e = 'f' then Char.ofNat 12
  else e

/-- Body of a JSON string after the opening quote: the decoded characters and
the input after the closing quote. -/
def parseStrChars : List Char → Option (List Char × List Char)
  | [] => none
  | '"' :: rest => some ([], rest)
  | '\\' :: e :: rest =>
      match parseStrChars rest with
      | some (s, r) => some (escChar e :: s, r)
      | none => none
  | c :: rest =>
      match parseStrChars rest with
      | some (s, r) => some (c :: s, r)
      | none => none

/-- Decimal digits to a natural number. -/
def digitsToNat (ds : List Char) : Nat :=
  ds.foldl (fun n c => n * 10 + (c.toNat - 48)) 0

/-- An optionally-signed run of digits. -/
def parseNumTok (cs : List Char) : Option (JVal × List Char) :=
  match cs with
  | '-' :: rest =>
      let ds := rest.takeWhile Char.isDigit
      if ds = [] then none
      else some (.num (-(digitsToNat ds : Int)), rest.dropWhile Char.isDigit)
  | _ =>
      let ds := cs.takeWhile Char.isDigit
      if ds = [] then none
      else some (.num (digitsToNat ds), cs.dropWhile Char.isDigit)

mutual
/-- One JSON value, expecting no leading whitespace. -/
def parseVal : Nat → List Char → Option (JVal × List Char)
  | 0, _ => none
  | Nat.succ fuel, cs =>
    match cs with
    | [] => none
    | c :: rest =>
      if c = '{' then
        match skipWs rest with
        | '}' :: r2 => some (.obj [], r2)
        | r2 =>
          match parseMembers fuel r2 with
          | some (fs, r3) => some (.obj fs, r3)
          | none => none
      else if c = '[' then
        match skipWs rest with
        | ']' :: r2 => some (.arr [], r2)
        | r2 =>
          match parseElems fuel r2 with
          | some (vs, r3) => some (.arr vs, r3)
          | none => none
      else if c = '"' then
        match parseStrChars rest with
        | some (s, r2) => some (.str (String.mk s), r2)
        | none => none
      else if c = 't' then
        match matchLit ('r' :: 'u' :: 'e' :: []) rest with
        | some r2 => some (.bool true, r2)
        | none => none
      else if c = 'f' then
        match matchLit ('a' :: 'l' :: 's' :: 'e' :: []) rest with
        | some r2 => some (.bool false, r2)
        | none => none
      else if c = 'n' then
        match matchLit ('u' :: 'l' :: 'l' :: []) rest with
        | some r2 => some (.null, r2)
        | none => none
      else parseNumTok cs

/-- Comma-separated array elements up to the closing bracket. -/
def parseElems : Nat → List Char → Option (List JVal × List Char)
  | 0, _ => none
  | Nat.succ fuel, cs =>
    match parseVal fuel cs with
    | some (v, r) =>
      match skipWs r with
      | ',' :: r2 =>
        match parseElems fuel (skipWs r2) with
        | some (vs, r3) => some (v :: vs, r3)
        | none => none
      | ']' :: r2 => some ([v], r2)
      | _ => none
    | none => none

/-- Comma-separated `"key": value` members up to the closing brace. -/
def parseMembers : Nat → List Char → Option (List (String × JVal) × List Char)
  | 0, _ => none
  | Nat.succ fuel, cs =>
    match cs with
    | '"' :: r =>
      match parseStrChars r with
      | some (k, r1) =>
        match skipWs r1 with
        | ':' :: r2 =>
          match parseVal fuel (skipWs r2) with
          | some (v, r3) =>
            match skipWs r3 with
            | ',' :: r4 =>
              match parseMembers fuel (skipWs r4) with
              | some (fs, r5) => some ((String.mk k, v) :: fs, r5)
              | none => none
            | '}' :: r4 => some ([(String.mk k, v)], r4)
            | _ => none
          | none => none
        | _ => none
      | none => none
    | _ => none
end

mutual
/-- Size of a value: one per node, plus the length of every string.  A value
produced by `jsonParse s` always has size at most `s.length`, which makes the
`compileResidual` recursion (re-parsing string elements of parsed arrays)
well founded. -/
def jsize : JVal → Nat
  | .null => 1
  | .bool _ => 1
  | .num _ => 1
  | .str s => s.length + 1
  | .arr xs => 1 + jsizeList xs
  | .obj fs => 1 + jsizeFields fs

/-- Total size of array elements. -/
def jsizeList : List JVal → Nat
  | [] => 0
  | x :: xs => jsize x + jsizeList xs

/-- Total size of object member values. -/
def jsizeFields : List (String × JVal) → Nat
  | [] => 0
  | (_, v) :: fs => jsize v + jsizeFields fs
end

/-- `JSON.parse`: parse one value, allow surrounding whitespace, reject
trailing input.  The final size check is always true for a freshly parsed
value (each node and each string character consumes input); it records that
bound where `compileResidual`'s recursion measure needs it. -/
def jsonParse (s : String) : Option JVal :=
  match parseVal (s.length + 1) (skipWs s.data) with
  | some (v, rest) =>
      if skipWs rest = [] then
        if jsize v ≤ s.length then some v else none
      else none
  | none => none

theorem jsonParse_jsize {s : String} {v : JVal} (h : jsonParse s = some v) :
    jsize v ≤ s.length := by
  unfold jsonParse at h
  split at h
  · split at h
    · split at h
      · cases h; assumption
      · simp at h
    · simp at h
  · simp at h

theorem jsize_pos (v : JVal) : 1 ≤ jsize v := by
  cases v <;> simp [jsize]

/-! ### The textual pattern matcher (`parseCedarExpression`)

The source tests a fixed sequence of regular expressions with
`exprText.match(...)`.  Each one is embedded as a matcher that attempts the
pattern at the start of its input and a `scanFor` search that tries every
start position from the left, which is exactly the `RegExp.match` semantics
here: in every pattern each greedy sub-pattern (`\w+`, `[^"]+`, `\s*`) is
followed by a character its own class excludes, so greedy matching never
needs to backtrack, and the two optional parentheses in `\(?...\)?` commit
deterministically because `(` and `)` can start neither `resource.` nor
`\s*==`. -/

/-- The regex class `\w` (the source's patterns are all ASCII). -/
def isWordChar (c : Char) : Bool := c.isAlphanum || c = '_'

/-- The regex class `\s`, restricted to the whitespace the inputs contain. -/
def isJsSpace (c : Char) : Bool :=
  c = ' ' || c = '\t' || c = '\n' || c = '\r' || c = '\x0b' || c = '\x0c'

/-- `\s*`: greedily skip whitespace. -/
def wsRun (cs : List Char) : List Char := cs.dropWhile isJsSpace

/-- `Platform::\w+::"([^"]+)"` — an entity reference; returns the captured
id and the rest of the input. -/
def matchEntityRef (cs : List Char) : Option (List Char × List Char) :=
  match matchLit ("Platform::".data) cs with
  | none => none
  | some r1 =>
    let w := r1.takeWhile isWordChar
    let r2 := r1.dropWhile isWordChar
    if w = [] then none
    else
      match matchLit (':' :: ':' :: '"' :: []) r2 with
      | none => none
      | some r3 =>
        let q := r3.takeWhile (fun c => !(c = '"'))
        let r4 := r3.dropWhile (fun c => !(c = '"'))
        if q = [] then none
        else
          match r4 with
          | '"' :: r5 => some (q, r5)
          | _ => none

/-- `\(resource\.(\w+)\)` — a parenthesized resource attribute; returns the
captured attribute name and the rest of the input. -/
def matchParenResource (cs : List Char) : Option (List Char × List Char) :=
  match matchLit ("(resource.".data) cs with
  | none => none
  | some r1 =>
    let w := r1.takeWhile isWordChar
    let r2 := r1.dropWhile isWordChar
    if w = [] then none
    else
      match r2 with
      | ')' :: r3 => some (w, r3)
      | _ => none

/-- One side of the `entityEqMatch` alternation (entity reference tried
first, as in the regex): `inl` carries an entity id, `inr` an attribute. -/
def matchAlt (cs : List Char) : Option ((List Char ⊕ List Char) × List Char) :=
  match matchEntityRef cs with
  | some (e, r) => some (.inl e, r)
  | none =>
    match matchParenResource cs with
    | some (a, r) => some (.inr a, r)
    | none => none

/-- The `entityEqMatch` pattern
`(?:Platform::\w+::"([^"]+)"|\(resource\.(\w+)\))\s*==\s*(?:...)` at the
start of the input; returns both sides' captures. -/
def matchEntityEqAt (cs : List Char) :
    Option ((List Char ⊕ List Char) × (List Char ⊕ List Char)) :=
  match matchAlt cs with
  | none => none
  | some (x, r1) =>
    match matchLit ("==".data) (wsRun r1) with
    | none => none
    | some r2 =>
      match matchAlt (wsRun r2) with
      | none => none
      | some (y, _) => some (x, y)

/-- `\(?` — consume one optional opening parenthesis. -/
def optParen : List Char → List Char
  | '(' :: r => r
  | cs => cs

/-- `\)?` — consume one optional closing parenthesis. -/
def optCloseParen : List Char → List Char
  | ')' :: r => r
  | cs => cs

/-- The `resourceEntityEqMatch` pattern
`\(?resource\.(\w+)\)?\s*==\s*Platform::\w+::"([^"]+)"` at the start;
returns `(attribute, entity id)`. -/
def matchResourceEntityEqAt (cs : List Char) : Option (List Char × List Char) :=
  match matchLit ("resource.".data) (optParen cs) with
  | none => none
  | some r1 =>
    let w := r1.takeWhile isWordChar
    let r2 := r1.dropWhile isWordChar
    if w = [] then none
    else
      match matchLit ("==".data) (wsRun (optCloseParen r2)) with
      | none => none
      | some r3 =>
        match matchEntityRef (wsRun r3) with
        | some (e, _) => some (w, e)
        | none => none

/-- The `stringEqMatch` pattern `\(?resource\.(\w+)\)?\s*==\s*"([^"]+)"` at
the start; returns `(attribute, string value)`. -/
def matchStringEqAt (cs : List Char) : Option (List Char × List Char) :=
  match matchLit ("resource.".data) (optParen cs) with
  | none => none
  | some r1 =>
    let w := r1.takeWhile isWordChar
    let r2 := r1.dropWhile isWordChar
    if w = [] then none
    else
      match matchLit ("==".data) (wsRun (optCloseParen r2)) with
      | none => none
      | some r3 =>
        match wsRun r3 with
        | '"' :: r4 =>
          let q := r4.takeWhile (fun c => !(c = '"'))
          let r5 := r4.dropWhile (fun c => !(c = '"'))
          if q = [] then none
          else
            match r5 with
            | '"' :: _ => some (w, q)
            | _ => none
        | _ => none

/-- The `setContainsMatch` pattern
`\[Platform::\w+::"([^"]+)"\]\.contains\(resource\.(\w+)\)` at the start;
returns `(entity id, attribute)`. -/
def matchSetContainsAt (cs : List Char) : Option (List Char × List Char) :=
  match cs with
  | '[' :: r0 =>
    match matchEntityRef r0 with
    | some (e, r1) =>
      match matchLit ("].contains(resource.".data) r1 with
      | none => none
      | some r2 =>
        let w := r2.takeWhile isWordChar
        let r3 := r2.dropWhile isWordChar
        if w = [] then none
        else
          match r3 with
          | ')' :: _ => some (e, w)
          | _ => none
    | none => none
  | _ => none

/-- The `notNullMatch` pattern `resource\.(\w+)\s*!=\s*null` at the start;
returns the captured attribute. -/
def matchNotNullAt (cs : List Char) : Option (List Char) :=
  match matchLit ("resource.".data) cs with
  | none => none
  | some r1 =>
    let w := r1.takeWhile isWordChar
    let r2 := r1.dropWhile isWordChar
    if w = [] then none
    else
      match matchLit ("!=".data) (wsRun r2) with
      | none => none
      | some r3 =>
        match matchLit ("null".data) (wsRun r3) with
        | some _ => some w
        | none => none

/-- The `nullMatch` pattern `resource\.(\w+)\s*==\s*null` at the start;
returns the captured attribute. -/
def matchNullAt (cs : List Char) : Option (List Char) :=
  match matchLit ("resource.".data) cs with
  | none => none
  | some r1 =>
    let w := r1.takeWhile isWordChar
    let r2 := r1.dropWhile isWordChar
    if w = [] then none
    else
      match matchLit ("==".data) (wsRun r2) with
      | none => none
      | some r3 =>
        match matchLit ("null".data) (wsRun r3) with
        | some _ => some w
        | none => none

/-- `RegExp.match` position search: try the pattern at each start position
from the left, taking the first success. -/
def scanFor {α : Type} (m : List Char → Option α) : List Char → Option α
  | [] => m []
  | c :: cs =>
    match m (c :: cs) with
    | some r => some r
    | none => scanFor m cs

/-- `String.prototype.trim`. -/
def jsTrimL (cs : List Char) : List Char :=
  ((cs.dropWhile isJsSpace).reverse.dropWhile isJsSpace).reverse

/-- Step 6: `resource.attr == null` → `exists` clause in `must_not`.  The
seventh and last pattern (`principal.X.contains(resource.Y)`) only logs a
warning, so after this step the accumulated result is returned as is. -/
def tryNull (cs : List Char) (result : ClauseSet) : ClauseSet :=
  match scanFor matchNullAt cs with
  | some attr =>
      { result with must_not := result.must_not ++
          [some (.exists_ (mapAttributeToField ("resource." ++ String.mk attr)))] }
  | none => result

/-- Step 5: `resource.attr != null` → `exists` clause in `must`. -/
def tryNotNull (cs : List Char) (result : ClauseSet) : ClauseSet :=
  match scanFor matchNotNullAt cs with
  | some attr =>
      { result with must := result.must ++
          [some (.exists_ (mapAttributeToField ("resource." ++ String.mk attr)))] }
  | none => tryNull cs result

/-- Step 4: the single-entity set-contains pattern → `term` clause in `must`. -/
def trySetContains (cs : List Char) (result : ClauseSet) : ClauseSet :=
  match scanFor matchSetContainsAt cs with
  | some (eid, attr) =>
      { result with must := result.must ++
          [some (.term (mapAttributeToField ("resource." ++ String.mk attr))
                       (.str (String.mk eid)))] }
  | none => tryNotNull cs result

/-- Step 3: `resource.attr == "string"` → `term` clause in `must`. -/
def tryStringEq (cs : List Char) (result : ClauseSet) : ClauseSet :=
  match scanFor matchStringEqAt cs with
  | some (attr, value) =>
      { result with must := result.must ++
          [some (.term (mapAttributeToField ("resource." ++ String.mk attr))
                       (.str (String.mk value)))] }
  | none => trySetContains cs result

/-- Step 2: `resource.attr == Entity::"id"` → `term` clause in `must`. -/
def tryResourceEntityEq (cs : List Char) (result : ClauseSet) : ClauseSet :=
  match scanFor matchResourceEntityEqAt cs with
  | some (attr, eid) =>
      { result with must := result.must ++
          [some (.term (mapAttributeToField ("resource." ++ String.mk attr))
                       (.str (String.mk eid)))] }
  | none => tryStringEq cs result

/-- Step 1: the two-sided entity-equality pattern.  The source only emits a
clause when `entityId && attrName` — one side an entity reference and the
other a parenthesized resource attribute; when the pattern matches with both
sides of the same kind it falls through to the later patterns. -/
def tryEntityEq (cs : List Char) (result : ClauseSet) : ClauseSet :=
  match scanFor matchEntityEqAt cs with
  | some (.inl eid, .inr attr) =>
      { result with must := result.must ++
          [some (.term (mapAttributeToField ("resource." ++ String.mk attr))
                       (.str (String.mk eid)))] }
  | some (.inr attr, .inl eid) =>
      { result with must := result.must ++
          [some (.term (mapAttributeToField ("resource." ++ String.mk attr))
                       (.str (String.mk eid)))] }
  | _ => tryResourceEntityEq cs result

/-- `parseCedarExpression(exprText, result)` from mapping.js: the literal
`false` contributes nothing; otherwise the six clause-producing patterns are
tried in source order, first match wins. -/
def parseCedarExpression (exprText : String) (result : ClauseSet) : ClauseSet :=
  if jsTrimL exprText.data = "false".data then result
  else tryEntityEq exprText.data result


/-- The strict comparison `value === 'confidential'`. -/
def isConfidentialStr : JVal → Bool
  | .str s => s = "confidential"
  | _ => false

/-- `parseConditionObject(obj, result)` from mapping.js: scan the entries in
order; a key containing `tenant` reaches the `extractEntityId(value)` call —
but `extractEntityId` lives in src/lib/util.js and is never imported into
mapping.js, so that call raises a `ReferenceError`; a key containing
`classification` synthesizes a `term` clause (into `must_not` when the value
is exactly the string `confidential`, into `must` otherwise); all other keys
are ignored. -/
def parseConditionObject : List (String × JVal) → ClauseSet → Except String ClauseSet
  | [], result => .ok result
  | (key, value) :: rest, result =>
    if jsIncludes key "tenant" then
      .error "ReferenceError: extractEntityId is not defined"
    else if jsIncludes key "classification" then
      if isConfidentialStr value then
        parseConditionObject rest
          { result with must_not := result.must_not ++
              [some (.term "classification" (.str "confidential"))] }
      else
        parseConditionObject rest
          { result with must := result.must ++ [some (.term "classification" value)] }
    else parseConditionObject rest result

mutual
/-- `compileResidual(condition)` from mapping.js: strings are `JSON.parse`d
when possible and otherwise handed to the textual pattern matcher; parsed or
structured values are dispatched by shape. -/
def compileResidual (condition : JVal) : Except String ClauseSet :=
  match condition with
  | .str s =>
    match h : jsonParse s with
    | some expr => compileResidualVal expr
    | none => .ok (parseCedarExpression s emptyClauseSet)
  | v => compileResidualVal v
termination_by (jsize condition, 2)
decreasing_by
  all_goals simp_wf
  all_goals simp only [Prod.lex_iff]
  all_goals
    first
    | (have hb := jsonParse_jsize h
       simp only [jsize]
       omega)
    | simp
    | omega

/-- The structured-value dispatch of `compileResidual`: an explicit
expression marker (`kind === 'expr'` or a truthy `expr` property) or an
operator property routes to `compileExpression`; arrays compile element by
element; other objects go to the heuristic key-based extractor; primitives
fail the `expr && typeof expr === 'object'` test and yield the fresh empty
result. -/
def compileResidualVal (expr : JVal) : Except String ClauseSet :=
  match expr with
  | .obj fs =>
    if strOf (getField (.obj fs) "kind") = some "expr"
        ∨ truthyO (getField (.obj fs) "expr") then
      compileExpression ((jsOr (getField (.obj fs) "expr") (some (.obj fs))).getD (.obj fs))
        emptyClauseSet
    else if truthyO (getField (.obj fs) "op") ∨ truthyO (getField (.obj fs) "operator") then
      compileExpression (.obj fs) emptyClauseSet
    else
      parseConditionObject fs emptyClauseSet
  | .arr xs => residualLoop xs emptyClauseSet
  | _ => .ok emptyClauseSet
termination_by (jsize expr, 1)
decreasing_by
  all_goals simp_wf
  all_goals simp only [Prod.lex_iff, jsize]
  all_goals omega

/-- The `for (const item of expr)` loop over an array residual: each element
is compiled by the top-level `compileResidual` (so string elements are
re-parsed) and merged into the running result. -/
def residualLoop (xs : List JVal) (result : ClauseSet) : Except String ClauseSet :=
  match xs with
  | [] => .ok result
  | x :: rest =>
    match compileResidual x with
    | .ok compiled => residualLoop rest (mergeResults result compiled)
    | .error msg => .error msg
termination_by (jsizeList xs + 1, 0)
decreasing_by
  all_goals simp_wf
  all_goals simp only [Prod.lex_iff, jsizeList]
  all_goals (have hp := jsize_pos x; omega)
end

/-! ### `buildOpenSearchFilter` (residual-to-filter.js) -/

/-- The assembled `bool` query: each key is present only under the conditions
coded in `buildOpenSearchFilter` (`none` models an absent key). -/
structure BoolQuery : Type where
  must : Option (List (Option Clause))
  must_not : Option (List (Option Clause))
  should : Option (List (Option Clause))
  minimum_should_match : Option Nat

/-- The `{ bool: ... }` wrapper returned by `buildOpenSearchFilter`. -/
structure FilterObject : Type where
  bool : BoolQuery

/-- The accumulation loop of `buildOpenSearchFilter`: compile each condition
with `compileResidual` inside `try`/`catch` — a compile error is logged and
the condition skipped — and append the three clause arrays of each success
(`compiled.must` etc. are always arrays, hence truthy, so every branch
appends). -/
def collectClauses : List JVal →
    List (Option Clause) × List (Option Clause) × List (Option Clause)
  | [] => ([], [], [])
  | c :: rest =>
    let (m, mn, sh) := collectClauses rest
    match compileResidual c with
    | .ok compiled => (compiled.must ++ m, compiled.must_not ++ mn, compiled.should ++ sh)
    | .error _ => (m, mn, sh)

/-- `buildOpenSearchFilter(conditions)` from residual-to-filter.js: compile
and concatenate, then attach `must`/`must_not`/`should` only when non-empty,
together with `minimum_should_match = 1` whenever `should` is attached. -/
def buildOpenSearchFilter (conditions : List JVal) : FilterObject :=
  let (must, mustNot, should) := collectClauses conditions
  { bool :=
    { must := if must.length > 0 then some must else none
      must_not := if mustNot.length > 0 then some mustNot else none
      should := if should.length > 0 then some should else none
      minimum_should_match := if should.length > 0 then some 1 else none } }

/-! ### Supporting lemmas -/

theorem matchLit_mem {ls cs r : List Char} (h : matchLit ls cs = some r) :
    ∀ c ∈ ls, c ∈ cs := by
  induction ls generalizing cs with
  | nil => intro c hc; simp at hc
  | cons l ls ih =>
    cases cs with
    | nil => simp [matchLit] at h
    | cons c0 cs0 =>
      simp only [matchLit] at h
      split at h
      · intro c hc
        rcases List.mem_cons.mp hc with hc | hc
        · subst hc
          rename_i heq
          subst heq
          exact List.mem_cons_self _ _
        · exact List.mem_cons_of_mem _ (ih h c hc)
      · simp at h

theorem matchLit_suffix {ls cs r : List Char} (h : matchLit ls cs = some r) :
    r <:+ cs := by
  induction ls generalizing cs with
  | nil =>
    simp only [matchLit] at h
    cases h
    exact List.suffix_refl r
  | cons l ls ih =>
    cases cs with
    | nil => simp [matchLit] at h
    | cons c0 cs0 =>
      simp only [matchLit] at h
      split at h
      · exact (ih h).trans (List.suffix_cons c0 cs0)
      · simp at h

theorem matchLit_self_append (ls t : List Char) : matchLit ls (ls ++ t) = some t := by
  induction ls with
  | nil => simp [matchLit]
  | cons l ls ih => simp [matchLit, ih]

theorem suffix_mem {cs r : List Char} {c : Char} (hs : r <:+ cs) (hc : c ∈ r) :
    c ∈ cs := hs.sublist.subset hc

theorem wsRun_suffix (cs : List Char) : wsRun cs <:+ cs := List.dropWhile_suffix _

theorem dropWhileWord_suffix (cs : List Char) : cs.dropWhile isWordChar <:+ cs :=
  List.dropWhile_suffix _

theorem optParen_suffix (cs : List Char) : optParen cs <:+ cs := by
  unfold optParen
  split
  · exact List.suffix_cons _ _
  · exact List.suffix_refl _

theorem optCloseParen_suffix (cs : List Char) : optCloseParen cs <:+ cs := by
  unfold optCloseParen
  split
  · exact List.suffix_cons _ _
  · exact List.suffix_refl _

theorem scanFor_eq_none {α : Type} {m : List Char → Option α} {cs : List Char}
    (H : ∀ s, s <:+ cs → m s = none) : scanFor m cs = none := by
  induction cs with
  | nil => simpa [scanFor] using H [] (List.suffix_refl [])
  | cons c cs ih =>
    have h0 := H (c :: cs) (List.suffix_refl _)
    simp only [scanFor, h0]
    exact ih fun s hs => H s (hs.trans (List.suffix_cons c cs))

theorem takeWhile_word_append {p : Char → Bool} {w : List Char} {y : Char}
    {rest : List Char} (hw : ∀ c ∈ w, p c = true) (hy : p y = false) :
    (w ++ y :: rest).takeWhile p = w ∧ (w ++ y :: rest).dropWhile p = y :: rest := by
  induction w with
  | nil => simp [List.takeWhile, List.dropWhile, hy]
  | cons c w ih =>
    have hc : p c = true := hw c (List.mem_cons_self _ _)
    have ih2 := ih fun d hd => hw d (List.mem_cons_of_mem _ hd)
    simp [List.takeWhile, List.dropWhile, hc, ih2.1, ih2.2]

theorem matchEntityRef_mem {cs : List Char} {pr : List Char × List Char}
    (h : matchEntityRef cs = some pr) : ':' ∈ cs := by
  unfold matchEntityRef at h
  split at h
  · simp at h
  · rename_i r1 hlit
    exact matchLit_mem hlit ':' (by decide)

theorem matchParenResource_mem {cs : List Char} {pr : List Char × List Char}
    (h : matchParenResource cs = some pr) : '(' ∈ cs := by
  unfold matchParenResource at h
  split at h
  · simp at h
  · rename_i r1 hlit
    exact matchLit_mem hlit '(' (by decide)

theorem matchAlt_mem {cs : List Char} {x : (List Char ⊕ List Char) × List Char}
    (h : matchAlt cs = some x) : ':' ∈ cs ∨ '(' ∈ cs := by
  unfold matchAlt at h
  split at h
  · rename_i e r he
    exact Or.inl (matchEntityRef_mem he)
  · split at h
    · rename_i a r ha
      exact Or.inr (matchParenResource_mem ha)
    · simp at h

theorem matchEntityEqAt_mem {cs : List Char}
    {x : (List Char ⊕ List Char) × (List Char ⊕ List Char)}
    (h : matchEntityEqAt cs = some x) : ':' ∈ cs ∨ '(' ∈ cs := by
  unfold matchEntityEqAt at h
  split at h
  · simp at h
  · rename_i p halt
    exact matchAlt_mem halt

theorem matchResourceEntityEqAt_mem {cs : List Char} {pr : List Char × List Char}
    (h : matchResourceEntityEqAt cs = some pr) : ':' ∈ cs := by
  unfold matchResourceEntityEqAt at h
  split at h
  · simp at h
  · rename_i r1 hlit1
    simp only at h
    split at h
    · simp at h
    · split at h
      · simp at h
      · rename_i r3 hlit2
        split at h
        · rename_i e r4 hent
          have hmem := matchEntityRef_mem hent
          have hchain : wsRun r3 <:+ cs :=
            ((((((wsRun_suffix r3).trans (matchLit_suffix hlit2)).trans
              (wsRun_suffix _)).trans (optCloseParen_suffix _)).trans
              (dropWhileWord_suffix r1)).trans (matchLit_suffix hlit1)).trans
              (optParen_suffix cs)
          exact suffix_mem hchain hmem
        · simp at h

theorem matchStringEqAt_mem {cs : List Char} {pr : List Char × List Char}
    (h : matchStringEqAt cs = some pr) : '"' ∈ cs := by
  unfold matchStringEqAt at h
  split at h
  · simp at h
  · rename_i r1 hlit1
    simp only at h
    split at h
    · simp at h
    · split at h
      · simp at h
      · rename_i r3 hlit2
        split at h
        · rename_i r4 heq
          have hmem : '"' ∈ wsRun r3 := by
            rw [heq]
            exact List.mem_cons_self _ _
          have hchain : wsRun r3 <:+ cs :=
            ((((((wsRun_suffix r3).trans (matchLit_suffix hlit2)).trans
              (wsRun_suffix _)).trans (optCloseParen_suffix _)).trans
              (dropWhileWord_suffix r1)).trans (matchLit_suffix hlit1)).trans
              (optParen_suffix cs)
          exact suffix_mem hchain hmem
        · simp at h

theorem matchSetContainsAt_mem {cs : List Char} {pr : List Char × List Char}
    (h : matchSetContainsAt cs = some pr) : '[' ∈ cs := by
  unfold matchSetContainsAt at h
  split at h
  · rename_i r0
    exact List.mem_cons_self _ _
  · simp at h

theorem matchNotNullAt_mem {cs : List Char} {w : List Char}
    (h : matchNotNullAt cs = some w) : '!' ∈ cs := by
  unfold matchNotNullAt at h
  split at h
  · simp at h
  · rename_i r1 hlit1
    simp only at h
    split at h
    · simp at h
    · split at h
      · simp at h
      · rename_i r3 hlit2
        have hmem : '!' ∈ wsRun (r1.dropWhile isWordChar) :=
          matchLit_mem hlit2 '!' (by decide)
        have hchain : wsRun (r1.dropWhile isWordChar) <:+ cs :=
          ((wsRun_suffix _).trans (dropWhileWord_suffix r1)).trans
            (matchLit_suffix hlit1)
        exact suffix_mem hchain hmem

theorem scanFor_none_entityEq {cs : List Char} (h1 : ':' ∉ cs) (h2 : '(' ∉ cs) :
    scanFor matchEntityEqAt cs = none :=
  scanFor_eq_none fun s hs => by
    cases hm : matchEntityEqAt s with
    | none => rfl
    | some r =>
      rcases matchEntityEqAt_mem hm with hx | hx
      · exact absurd (suffix_mem hs hx) h1
      · exact absurd (suffix_mem hs hx) h2

theorem scanFor_none_resourceEntityEq {cs : List Char} (h1 : ':' ∉ cs) :
    scanFor matchResourceEntityEqAt cs = none :=
  scanFor_eq_none fun s hs => by
    cases hm : matchResourceEntityEqAt s with
    | none => rfl
    | some r => exact absurd (suffix_mem hs (matchResourceEntityEqAt_mem hm)) h1

theorem scanFor_none_stringEq {cs : List Char} (h1 : '"' ∉ cs) :
    scanFor matchStringEqAt cs = none :=
  scanFor_eq_none fun s hs => by
    cases hm : matchStringEqAt s with
    | none => rfl
    | some r => exact absurd (suffix_mem hs (matchStringEqAt_mem hm)) h1

theorem scanFor_none_setContains {cs : List Char} (h1 : '[' ∉ cs) :
    scanFor matchSetContainsAt cs = none :=
  scanFor_eq_none fun s hs => by
    cases hm : matchSetContainsAt s with
    | none => rfl
    | some r => exact absurd (suffix_mem hs (matchSetContainsAt_mem hm)) h1

theorem scanFor_none_notNull {cs : List Char} (h1 : '!' ∉ cs) :
    scanFor matchNotNullAt cs = none :=
  scanFor_eq_none fun s hs => by
    cases hm : matchNotNullAt s with
    | none => rfl
    | some r => exact absurd (suffix_mem hs (matchNotNullAt_mem hm)) h1

theorem dropWhile_append_last {p : Char → Bool} {c : Char} (hc : p c = false)
    (l : List Char) : ∃ l2, (l ++ [c]).dropWhile p = l2 ++ [c] := by
  induction l with
  | nil => exact ⟨[], by simp [List.dropWhile, hc]⟩
  | cons x xs ih =>
    by_cases hx : p x
    · obtain ⟨l2, hl2⟩ := ih
      exact ⟨l2, by simp [List.dropWhile_cons, hx, hl2]⟩
    · exact ⟨x :: xs, by simp [List.dropWhile_cons, hx]⟩

theorem jsTrimL_cons_r (x : List Char) : ∃ t, jsTrimL ('r' :: x) = 'r' :: t := by
  unfold jsTrimL
  rw [List.dropWhile_cons]
  simp only [show isJsSpace 'r' = false by decide, Bool.false_eq_true, if_false]
  rw [List.reverse_cons]
  obtain ⟨l2, hl2⟩ := dropWhile_append_last (show isJsSpace 'r' = false by decide) x.reverse
  rw [hl2, List.reverse_append]
  exact ⟨l2.reverse, by simp⟩

theorem jsTrimL_cons_r_ne_false (x : List Char) : jsTrimL ('r' :: x) ≠ "false".data := by
  obtain ⟨t, ht⟩ := jsTrimL_cons_r x
  rw [ht]
  intro hcontra
  have : 'r' = 'f' := by
    have := List.head_eq_of_cons_eq hcontra
    simpa using this
  exact absurd this (by decide)

theorem parseVal_r_cons (n : Nat) (x : List Char) : parseVal n ('r' :: x) = none := by
  cases n with
  | zero => rfl
  | succ m =>
    simp [parseVal, parseNumTok, List.takeWhile_cons]

theorem jsonParse_r {s : String} (hd : ∃ x, s.data = 'r' :: x) : jsonParse s = none := by
  obtain ⟨x, hx⟩ := hd
  unfold jsonParse
  have hskip : skipWs s.data = 'r' :: x := by
    rw [hx]
    unfold skipWs
    rw [List.dropWhile_cons]
    simp [show jsonWs 'r' = false by decide]
  rw [hskip, parseVal_r_cons]

theorem not_mem_text {wa pre sfx : List Char} {c : Char}
    (hw : ∀ d ∈ wa, isWordChar d = true) (hcw : isWordChar c = false)
    (hpre : c ∉ pre) (hsfx : c ∉ sfx) : c ∉ pre ++ wa ++ sfx := by
  intro hmem
  rcases List.mem_append.mp hmem with hm | hm
  · rcases List.mem_append.mp hm with hm2 | hm2
    · exact hpre hm2
    · rw [hw c hm2] at hcw; cases hcw
  · exact hsfx hm

theorem scanFor_cons_success {α : Type} {m : List Char → Option α} {c : Char}
    {cs : List Char} {r : α} (h : m (c :: cs) = some r) :
    scanFor m (c :: cs) = some r := by
  simp [scanFor, h]

theorem compileResidual_str_none {s : String} (h : jsonParse s = none) :
    compileResidual (.str s) = .ok (parseCedarExpression s emptyClauseSet) := by
  unfold compileResidual
  split
  · rename_i expr heq
    rw [h] at heq
    cases heq
  · rfl

theorem compileResidual_str_some {s : String} {v : JVal} (h : jsonParse s = some v) :
    compileResidual (.str s) = compileResidualVal v := by
  unfold compileResidual
  split
  · rename_i expr heq
    rw [h] at heq
    cases heq
    rfl
  · rename_i heq
    rw [h] at heq
    cases heq

theorem tryEntityEq_none {cs : List Char} {result : ClauseSet}
    (h : scanFor matchEntityEqAt cs = none) :
    tryEntityEq cs result = tryResourceEntityEq cs result := by
  unfold tryEntityEq
  rw [h]

theorem tryResourceEntityEq_none {cs : List Char} {result : ClauseSet}
    (h : scanFor matchResourceEntityEqAt cs = none) :
    tryResourceEntityEq cs result = tryStringEq cs result := by
  unfold tryResourceEntityEq
  rw [h]

theorem tryStringEq_none {cs : List Char} {result : ClauseSet}
    (h : scanFor matchStringEqAt cs = none) :
    tryStringEq cs result = trySetContains cs result := by
  unfold tryStringEq
  rw [h]

theorem trySetContains_none {cs : List Char} {result : ClauseSet}
    (h : scanFor matchSetContainsAt cs = none) :
    trySetContains cs result = tryNotNull cs result := by
  unfold trySetContains
  rw [h]

theorem tryNotNull_some {cs : List Char} {result : ClauseSet} {attr : List Char}
    (h : scanFor matchNotNullAt cs = some attr) :
    tryNotNull cs result = { result with must := result.must ++
      [some (.exists_ (mapAttributeToField ("resource." ++ String.mk attr)))] } := by
  unfold tryNotNull
  rw [h]

theorem tryNotNull_none {cs : List Char} {result : ClauseSet}
    (h : scanFor matchNotNullAt cs = none) :
    tryNotNull cs result = tryNull cs result := by
  unfold tryNotNull
  rw [h]

theorem tryNull_some {cs : List Char} {result : ClauseSet} {attr : List Char}
    (h : scanFor matchNullAt cs = some attr) :
    tryNull cs result = { result with must_not := result.must_not ++
      [some (.exists_ (mapAttributeToField ("resource." ++ String.mk attr)))] } := by
  unfold tryNull
  rw [h]

theorem stripResource_of_word (a : String) (hw : ∀ c ∈ a.data, isWordChar c = true) :
    stripResource a = a := by
  unfold stripResource
  split
  · rename_i rest heq
    exfalso
    have hdot : '.' ∈ a.data := by rw [heq]; simp
    exact absurd (hw '.' hdot) (by decide)
  · rfl

theorem stripResource_resource_append (a : String) :
    stripResource ("resource." ++ a) = a := by
  unfold stripResource
  have hd : ("resource." ++ a).data
      = 'r' :: 'e' :: 's' :: 'o' :: 'u' :: 'r' :: 'c' :: 'e' :: '.' :: a.data := by
    rw [String.data_append]
    rfl
  rw [hd]
  split
  · rename_i rest heq
    simp only [List.cons.injEq, true_and] at heq
    rw [← heq]
  · rename_i hpat
    exact absurd rfl (hpat a.data)

theorem mapAttributeToField_drop_resource (a : String)
    (hw : ∀ c ∈ a.data, isWordChar c = true) :
    mapAttributeToField ("resource." ++ a) = mapAttributeToField a := by
  unfold mapAttributeToField
  rw [stripResource_resource_append a, stripResource_of_word a hw]

theorem matchNotNull_success (wa : List Char)
    (hw : ∀ c ∈ wa, isWordChar c = true) (hne : wa ≠ []) :
    matchNotNullAt ("resource.".data ++
        (wa ++ (' ' :: '!' :: '=' :: ' ' :: 'n' :: 'u' :: 'l' :: 'l' :: [])))
      = some wa := by
  unfold matchNotNullAt
  rw [matchLit_self_append]
  obtain ⟨htake, hdrop⟩ := @takeWhile_word_append isWordChar wa ' '
    ('!' :: '=' :: ' ' :: 'n' :: 'u' :: 'l' :: 'l' :: []) hw (by decide)
  simp only [htake, hdrop]
  simp [hne, wsRun, List.dropWhile_cons, matchLit]

theorem matchNull_success (wa : List Char)
    (hw : ∀ c ∈ wa, isWordChar c = true) (hne : wa ≠ []) :
    matchNullAt ("resource.".data ++
        (wa ++ (' ' :: '=' :: '=' :: ' ' :: 'n' :: 'u' :: 'l' :: 'l' :: [])))
      = some wa := by
  unfold matchNullAt
  rw [matchLit_self_append]
  obtain ⟨htake, hdrop⟩ := @takeWhile_word_append isWordChar wa ' '
    ('=' :: '=' :: ' ' :: 'n' :: 'u' :: 'l' :: 'l' :: []) hw (by decide)
  simp only [htake, hdrop]
  simp [hne, wsRun, List.dropWhile_cons, matchLit]

/-- Claim C3: for every attribute name `a` (a non-empty `\w+` identifier, the
only shape the source's patterns can capture), compiling the text
`resource.a != null` yields exactly one clause, `Exists{mapField(a)}`, placed
in `must` (nothing in `must_not` or `should`), and compiling
`resource.a == null` yields exactly one clause, `Exists{mapField(a)}`, placed
in `must_not` (nothing in `must` or `should`). -/
theorem null_check_text_compiles (a : String) (hne : a.data ≠ [])
    (hw : ∀ c ∈ a.data, isWordChar c = true) :
    compileResidual (.str ("resource." ++ a ++ " != null")) =
      .ok ⟨[some (.exists_ (mapAttributeToField a))], [], []⟩ ∧
    compileResidual (.str ("resource." ++ a ++ " == null")) =
      .ok ⟨[], [some (.exists_ (mapAttributeToField a))], []⟩ := by
  constructor
  · have hdata0 : ("resource." ++ a ++ " != null").data
        = ("resource.".data ++ a.data) ++ (" != null").data := by
      rw [String.data_append, String.data_append]
    have hcons : ("resource." ++ a ++ " != null").data
        = 'r' :: (('e' :: 's' :: 'o' :: 'u' :: 'r' :: 'c' :: 'e' :: '.' :: []) ++
            (a.data ++ (' ' :: '!' :: '=' :: ' ' :: 'n' :: 'u' :: 'l' :: 'l' :: []))) := by
      rw [hdata0]
      simp [List.append_assoc]
    have hjp : jsonParse ("resource." ++ a ++ " != null") = none := jsonParse_r ⟨_, hcons⟩
    have habs : ∀ c : Char, isWordChar c = false → (c ∉ "resource.".data) →
        (c ∉ (" != null").data) → c ∉ ("resource." ++ a ++ " != null").data := by
      intro c h1 h2 h3
      rw [hdata0]
      exact not_mem_text hw h1 h2 h3
    have hsuccess : scanFor matchNotNullAt ("resource." ++ a ++ " != null").data
        = some a.data := by
      rw [hcons]
      apply scanFor_cons_success
      have hs := matchNotNull_success a.data hw hne
      rw [show ("resource.").data
          = 'r' :: 'e' :: 's' :: 'o' :: 'u' :: 'r' :: 'c' :: 'e' :: '.' :: [] from rfl] at hs
      simpa [List.cons_append] using hs
    have htrim : jsTrimL ("resource." ++ a ++ " != null").data ≠ "false".data := by
      rw [hcons]
      exact jsTrimL_cons_r_ne_false _
    rw [compileResidual_str_none hjp]
    unfold parseCedarExpression
    rw [if_neg htrim,
      tryEntityEq_none (scanFor_none_entityEq
        (habs ':' (by decide) (by decide) (by decide))
        (habs '(' (by decide) (by decide) (by decide))),
      tryResourceEntityEq_none (scanFor_none_resourceEntityEq
        (habs ':' (by decide) (by decide) (by decide))),
      tryStringEq_none (scanFor_none_stringEq
        (habs '"' (by decide) (by decide) (by decide))),
      trySetContains_none (scanFor_none_setContains
        (habs '[' (by decide) (by decide) (by decide))),
      tryNotNull_some hsuccess]
    rw [show String.mk a.data = a from rfl]
    rw [mapAttributeToField_drop_resource a hw]
    rfl
  · have hdata0 : ("resource." ++ a ++ " == null").data
        = ("resource.".data ++ a.data) ++ (" == null").data := by
      rw [String.data_append, String.data_append]
    have hcons : ("resource." ++ a ++ " == null").data
        = 'r' :: (('e' :: 's' :: 'o' :: 'u' :: 'r' :: 'c' :: 'e' :: '.' :: []) ++
            (a.data ++ (' ' :: '=' :: '=' :: ' ' :: 'n' :: 'u' :: 'l' :: 'l' :: []))) := by
      rw [hdata0]
      simp [List.append_assoc]
    have hjp : jsonParse ("resource." ++ a ++ " == null") = none := jsonParse_r ⟨_, hcons⟩
    have habs : ∀ c : Char, isWordChar c = false → (c ∉ "resource.".data) →
        (c ∉ (" == null").data) → c ∉ ("resource." ++ a ++ " == null").data := by
      intro c h1 h2 h3
      rw [hdata0]
      exact not_mem_text hw h1 h2 h3
    have hsuccess : scanFor matchNullAt ("resource." ++ a ++ " == null").data
        = some a.data := by
      rw [hcons]
      apply scanFor_cons_success
      have hs := matchNull_success a.data hw hne
      rw [show ("resource.").data
          = 'r' :: 'e' :: 's' :: 'o' :: 'u' :: 'r' :: 'c' :: 'e' :: '.' :: [] from rfl] at hs
      simpa [List.cons_append] using hs
    have htrim : jsTrimL ("resource." ++ a ++ " == null").data ≠ "false".data := by
      rw [hcons]
      exact jsTrimL_cons_r_ne_false _
    rw [compileResidual_str_none hjp]
    unfold parseCedarExpression
    rw [if_neg htrim,
      tryEntityEq_none (scanFor_none_entityEq
        (habs ':' (by decide) (by decide) (by decide))
        (habs '(' (by decide) (by decide) (by decide))),
      tryResourceEntityEq_none (scanFor_none_resourceEntityEq
        (habs ':' (by decide) (by decide) (by decide))),
      tryStringEq_none (scanFor_none_stringEq
        (habs '"' (by decide) (by decide) (by decide))),
      trySetContains_none (scanFor_none_setContains
        (habs '[' (by decide) (by decide) (by decide))),
      tryNotNull_none (scanFor_none_notNull
        (habs '!' (by decide) (by decide) (by decide))),
      tryNull_some hsuccess]
    rw [show String.mk a.data = a from rfl]
    rw [mapAttributeToField_drop_resource a hw]
    rfl

/-- Witness for C3 at the concrete attribute `customer_readers_team`. -/
theorem null_check_text_compiles_witness :
    compileResidual (.str ("resource." ++ "customer_readers_team" ++ " != null")) =
      .ok ⟨[some (.exists_ "customer_readers_team_id")], [], []⟩ ∧
    compileResidual (.str ("resource." ++ "customer_readers_team" ++ " == null")) =
      .ok ⟨[], [some (.exists_ "customer_readers_team_id")], []⟩ := by
  have h := null_check_text_compiles "customer_readers_team" (by decide) (by decide)
  have hm : mapAttributeToField "customer_readers_team" = "customer_readers_team_id" := by
    decide
  rw [hm] at h
  exact h

/-- Claim C1 (code bug): on the loosely-keyed object `{"tenant": "custco"}`,
which the dispatcher routes to the heuristic key-based extractor,
`compileResidual` does not return a clause set: `parseConditionObject`'s
tenant branch calls `extractEntityId`, which is exported by src/lib/util.js
but never imported into mapping.js, so the call raises a `ReferenceError`
that propagates to the caller — contradicting the contract that `compile`
never fails. -/
theorem compileResidual_tenant_key_raises :
    compileResidual (.obj [("tenant", .str "custco")]) =
      .error "ReferenceError: extractEntityId is not defined" := by
  simp [compileResidual, compileResidualVal, parseConditionObject, strOf, getField,
    lookupField, truthyO, jsIncludes, hasSubstr, startsWithL]

/-- Claim C9: for an equality node whose left side does not resolve to an
attribute path (`extractAttributePath` returns `null`), `compileExpression`
appends the JS value `null` (modelled as `none`) to `must` for `==`/`eq` and
to `must_not` for `!=`/`ne` — an entry that is none of `term`, `terms`,
`exists`. -/
theorem equality_unresolved_left_appends_null (fs : List (String × JVal))
    (acc : ClauseSet)
    (hleft : extractAttributePath (leftValOf (.obj fs)) = .null) :
    ((opStrOf (.obj fs) = some "==" ∨ opStrOf (.obj fs) = some "eq") →
      compileExpression (.obj fs) acc =
        .ok ⟨acc.must ++ [none], acc.must_not, acc.should⟩) ∧
    ((opStrOf (.obj fs) = some "!=" ∨ opStrOf (.obj fs) = some "ne") →
      compileExpression (.obj fs) acc =
        .ok ⟨acc.must, acc.must_not ++ [none], acc.should⟩) := by
  have heq : compileEquality (.obj fs) = .ok none := by
    simp [compileEquality, hleft, truthy]
  constructor <;> intro hop <;> rcases hop with hop | hop <;>
    simp [compileExpression, isObjectLike, hop, heq]

/-- Witness for C9: an equality whose left side is the number `5`. -/
theorem equality_unresolved_left_appends_null_witness :
    compileExpression (.obj [("op", .str "=="), ("left", .num 5), ("right", .str "x")])
      ⟨[], [], []⟩ = .ok ⟨[none], [], []⟩ := by
  have h := equality_unresolved_left_appends_null
    [("op", .str "=="), ("left", .num 5), ("right", .str "x")] ⟨[], [], []⟩ rfl
  have h2 := h.1 (Or.inl rfl)
  simpa using h2

/-- Claim C7: an expression node whose operator (`op`/`operator`/`kind`) is
not one of the ten recognized operator strings contributes nothing:
`compileExpression` raises no error and returns exactly the accumulator it
was passed. -/
theorem unknown_operator_returns_accumulator (fs : List (String × JVal))
    (acc : ClauseSet)
    (h : ∀ s : String, opStrOf (.obj fs) = some s →
      s ∉ (["and", "&&", "or", "||", "==", "eq", "!=", "ne", "in", "contains"] :
        List String)) :
    compileExpression (.obj fs) acc = .ok acc := by
  cases hop : opStrOf (.obj fs) with
  | none => simp [compileExpression, isObjectLike, hop]
  | some s =>
    have hs := h s hop
    simp only [List.mem_cons, List.not_mem_nil, or_false, not_or] at hs
    obtain ⟨h1, h2, h3, h4, h5, h6, h7, h8, h9, h10⟩ := hs
    simp [compileExpression, isObjectLike, hop, h1, h2, h3, h4, h5, h6, h7, h8, h9, h10]

/-- Witness for C7: the unknown operator `xyz` over a non-empty accumulator. -/
theorem unknown_operator_returns_accumulator_witness :
    compileExpression (.obj [("op", .str "xyz")]) ⟨[some (.exists_ "f")], [], []⟩ =
      .ok ⟨[some (.exists_ "f")], [], []⟩ := by
  apply unknown_operator_returns_accumulator
  intro s hs
  rw [show opStrOf (.obj [("op", JVal.str "xyz")]) = some "xyz" from rfl] at hs
  cases hs
  decide

/-- Counterexample to claim C2 as stated: a containment node whose member
side is the non-resource path `principal.team` does *not* leave the
accumulator unchanged — `compileExpression` pushes the `null` returned by
`compileContains` onto `must`. -/
theorem contains_nonresource_member_cex :
    compileExpression (.obj [("op", .str "in"), ("left", .str "principal.teams"),
      ("right", .str "principal.team")]) emptyClauseSet = .ok ⟨[none], [], []⟩ ∧
    (⟨[none], [], []⟩ : ClauseSet) ≠ emptyClauseSet := by
  constructor
  · simp [compileExpression, isObjectLike, opStrOf, opValOf, strOf, getField,
      lookupField, jsOr, truthy, compileContains, rightValOf, leftValOf,
      extractAttributePath, extractValue, emptyClauseSet,
      show jsStartsWith "principal.team" "resource." = false from by decide,
      show jsStartsWith "principal.team" "principal." = true from by decide]
  · intro hcontra
    have := congrArg ClauseSet.must hcontra
    simp [emptyClauseSet] at this

/-- Claim C2 as amended: for an `in`/`contains` node whose member (right)
side does not resolve to an attribute path starting with `resource.`, the
containment contributes no `term`/`terms`/`exists` clause, but the JS `null`
returned by `compileContains` is appended to `must` (nothing is added to
`must_not` or `should`), so the result is not the untouched accumulator. -/
theorem contains_nonresource_member_appends_null (fs : List (String × JVal))
    (acc : ClauseSet)
    (hop : opStrOf (.obj fs) = some "in" ∨ opStrOf (.obj fs) = some "contains")
    (hpath : extractAttributePath (rightValOf (.obj fs)) = .null ∨
      ∃ s, extractAttributePath (rightValOf (.obj fs)) = .str s ∧
        jsStartsWith s "resource." = false) :
    compileExpression (.obj fs) acc =
      .ok ⟨acc.must ++ [none], acc.must_not, acc.should⟩ := by
  have hcc : compileContains (.obj fs) = .ok none := by
    rcases hpath with hp | ⟨s, hp, hsw⟩
    · simp [compileContains, hp, truthy]
    · simp only [compileContains, hp, truthy]
      split <;> simp [hsw]
  rcases hop with hop | hop <;> simp [compileExpression, isObjectLike, hop, hcc]

/-- Witness for the amended C2: a containment whose member side is an object
with a non-resource `path` property. -/
theorem contains_nonresource_member_appends_null_witness :
    compileExpression (.obj [("op", .str "contains"),
      ("right", .obj [("path", .str "principal.owner_team")])]) ⟨[], [], []⟩ =
      .ok ⟨[none], [], []⟩ := by
  have h := contains_nonresource_member_appends_null
    [("op", .str "contains"), ("right", .obj [("path", .str "principal.owner_team")])]
    ⟨[], [], []⟩ (Or.inr rfl)
    (Or.inr ⟨"principal.owner_team", rfl, by decide⟩)
  simpa using h

/-- Compile each node of a list into a fresh empty clause set, as the `or`
loop of `compileExpression` does child by child. -/
def compileFresh : List JVal → Except String (List ClauseSet)
  | [] => .ok []
  | x :: xs =>
    match compileExpression x emptyClauseSet with
    | .ok r =>
      match compileFresh xs with
      | .ok rs => .ok (r :: rs)
      | .error msg => .error msg
    | .error msg => .error msg

theorem orCollect_spec {xs : List JVal} {rs : List ClauseSet}
    (h : compileFresh xs = .ok rs) (acc : List (Option Clause)) :
    orCollect xs acc = .ok (acc ++ (rs.map ClauseSet.must).join) := by
  induction xs generalizing rs acc with
  | nil =>
    simp only [compileFresh] at h
    cases h
    simp [orCollect]
  | cons x xs ih =>
    simp only [compileFresh] at h
    split at h
    · rename_i r hr
      split at h
      · rename_i rs2 hrs
        cases h
        simp only [orCollect, hr]
        rw [ih hrs]
        simp [List.append_assoc]
      · simp at h
    · simp at h

theorem compileExpression_or_arr {fs : List (String × JVal)} {xs : List JVal}
    {acc : ClauseSet}
    (hop : opStrOf (.obj fs) = some "or" ∨ opStrOf (.obj fs) = some "||")
    (hch : childrenValOf (.obj fs) = some (.arr xs)) :
    compileExpression (.obj fs) acc =
      match orCollect xs [] with
      | .ok sc => .ok (if sc.length > 0 then { acc with should := acc.should ++ sc }
                       else acc)
      | .error msg => .error msg := by
  unfold compileExpression
  rcases hop with hop | hop <;>
  · rw [if_pos (by simp [isObjectLike])]
    rw [if_neg (by simp [hop]), if_pos (by simp [hop])]
    split <;> rename_i harm
    · rw [hch] at harm
      cases harm
      rfl
    all_goals (rw [hch] at harm; cases harm)

/-- Claim C5: an `or`/`||` node with a `children` (or `args`) list compiles
each child into a fresh empty clause set, and appends only the entries of
each child's `must` sequence — individually, in child order — onto the
parent's `should`; the children's `must_not` and `should` are discarded and
the parent's `must` and `must_not` are unchanged. -/
theorem or_node_collects_children_musts (fs : List (String × JVal)) (xs : List JVal)
    (rs : List ClauseSet) (acc : ClauseSet)
    (hop : opStrOf (.obj fs) = some "or" ∨ opStrOf (.obj fs) = some "||")
    (hch : childrenValOf (.obj fs) = some (.arr xs))
    (hcf : compileFresh xs = .ok rs) :
    compileExpression (.obj fs) acc =
      .ok ⟨acc.must, acc.must_not, acc.should ++ (rs.map ClauseSet.must).join⟩ := by
  rw [compileExpression_or_arr hop hch, orCollect_spec hcf []]
  simp only [List.nil_append]
  cases hj : (rs.map ClauseSet.must).join with
  | nil => simp
  | cons c cj => simp

/-- Witness for C5: an `or` of two resource equalities. -/
theorem or_node_collects_children_musts_witness :
    compileExpression (.obj [("op", .str "or"), ("children", .arr [
      .obj [("op", .str "=="), ("left", .str "resource.tenant"), ("right", .str "a")],
      .obj [("op", .str "=="), ("left", .str "resource.doc"), ("right", .str "b")]])])
      ⟨[], [], []⟩ =
      .ok ⟨[], [], [some (.term "tenant_id" (.str "a")),
                    some (.term "doc_id" (.str "b"))]⟩ := by
  have h := or_node_collects_children_musts
    [("op", .str "or"), ("children", .arr [
      .obj [("op", .str "=="), ("left", .str "resource.tenant"), ("right", .str "a")],
      .obj [("op", .str "=="), ("left", .str "resource.doc"), ("right", .str "b")]])]
    [.obj [("op", .str "=="), ("left", .str "resource.tenant"), ("right", .str "a")],
     .obj [("op", .str "=="), ("left", .str "resource.doc"), ("right", .str "b")]]
    [⟨[some (.term "tenant_id" (.str "a"))], [], []⟩,
     ⟨[some (.term "doc_id" (.str "b"))], [], []⟩]
    ⟨[], [], []⟩ (Or.inl rfl) rfl
    (by simp [compileFresh, compileExpression, isObjectLike, opStrOf, opValOf, strOf,
      getField, lookupField, jsOr, truthy, compileEquality, leftValOf, rightValOf,
      extractAttributePath, extractValue, emptyClauseSet,
      show jsStartsWith "resource.tenant" "resource." = true from by decide,
      show jsStartsWith "resource.doc" "resource." = true from by decide,
      show mapAttributeToField "resource.tenant" = "tenant_id" from by decide,
      show mapAttributeToField "resource.doc" = "doc_id" from by decide])
  simpa using h

/-- Compile each element of an array residual independently with the
top-level `compileResidual`, as the array loop does. -/
def compileEach : List JVal → Except String (List ClauseSet)
  | [] => .ok []
  | x :: xs =>
    match compileResidual x with
    | .ok r =>
      match compileEach xs with
      | .ok rs => .ok (r :: rs)
      | .error msg => .error msg
    | .error msg => .error msg

theorem residualLoop_spec {xs : List JVal} {rs : List ClauseSet}
    (h : compileEach xs = .ok rs) (acc : ClauseSet) :
    residualLoop xs acc = .ok ⟨acc.must ++ (rs.map ClauseSet.must).join,
      acc.must_not ++ (rs.map ClauseSet.must_not).join,
      acc.should ++ (rs.map ClauseSet.should).join⟩ := by
  induction xs generalizing rs acc with
  | nil =>
    simp only [compileEach] at h
    cases h
    simp [residualLoop]
  | cons x xs ih =>
    simp only [compileEach] at h
    split at h
    · rename_i r hr
      split at h
      · rename_i rs2 hrs
        cases h
        simp only [residualLoop, hr]
        rw [ih hrs]
        simp [mergeResults, List.append_assoc]
      · simp at h
    · simp at h

/-- Claim C6: an array residual compiles each element independently (with the
top-level `compileResidual`) and concatenates the element results in input
order, sequence by sequence. -/
theorem array_residual_concatenates (xs : List JVal) (rs : List ClauseSet)
    (h : compileEach xs = .ok rs) :
    compileResidual (.arr xs) = .ok ⟨(rs.map ClauseSet.must).join,
      (rs.map ClauseSet.must_not).join, (rs.map ClauseSet.should).join⟩ := by
  have h1 : compileResidual (.arr xs) = compileResidualVal (.arr xs) := by
    simp [compileResidual]
  have h2 : compileResidualVal (.arr xs) = residualLoop xs emptyClauseSet := by
    simp [compileResidualVal]
  rw [h1, h2, residualLoop_spec h emptyClauseSet]
  simp [emptyClauseSet]

/-- Witness for C6: the spec's example — a negated classification equality
followed by a tenant equality — preserving input order. -/
theorem array_residual_concatenates_witness :
    compileResidual (.arr [
      .obj [("op", .str "!="), ("left", .str "resource.classification"),
            ("right", .str "confidential")],
      .obj [("op", .str "=="), ("left", .str "resource.tenant"),
            ("right", .str "custco")]]) =
      .ok ⟨[some (.term "tenant_id" (.str "custco"))],
           [some (.term "classification" (.str "confidential"))], []⟩ := by
  have h := array_residual_concatenates
    [.obj [("op", .str "!="), ("left", .str "resource.classification"),
           ("right", .str "confidential")],
     .obj [("op", .str "=="), ("left", .str "resource.tenant"),
           ("right", .str "custco")]]
    [⟨[], [some (.term "classification" (.str "confidential"))], []⟩,
     ⟨[some (.term "tenant_id" (.str "custco"))], [], []⟩]
    (by simp [compileEach, compileResidual, compileResidualVal, compileExpression,
      isObjectLike, opStrOf, opValOf, strOf, getField, lookupField, jsOr, truthy,
      truthyO, compileEquality, leftValOf, rightValOf, extractAttributePath,
      extractValue, emptyClauseSet,
      show jsStartsWith "resource.tenant" "resource." = true from by decide,
      show jsStartsWith "resource.classification" "resource." = true from by decide,
      show mapAttributeToField "resource.tenant" = "tenant_id" from by decide,
      show mapAttributeToField "resource.classification" = "classification" from by decide])
  simpa using h

/-- Counterexample to claim C10 as stated: a key containing `tenant` does not
produce `Term{tenant_id: ...}` in `must` — compilation raises instead
(`extractEntityId` is not in scope in mapping.js). -/
theorem parseConditionObject_tenant_key_cex :
    compileResidual (.obj [("doc_tenant", .str "custco")]) =
      .error "ReferenceError: extractEntityId is not defined" ∧
    ∀ r : ClauseSet, compileResidual (.obj [("doc_tenant", .str "custco")]) ≠ .ok r := by
  have h : compileResidual (.obj [("doc_tenant", .str "custco")]) =
      .error "ReferenceError: extractEntityId is not defined" := by
    simp [compileResidual, compileResidualVal, parseConditionObject, strOf, getField,
      lookupField, truthyO,
      show jsIncludes "doc_tenant" "tenant" = true from by decide]
  exact ⟨h, fun r hr => by rw [h] at hr; cases hr⟩

/-- Claim C10 as amended, for a single-entry heuristic object `{k: v}`: a key
containing `tenant` makes `compileResidual` raise the `ReferenceError`
(`extractEntityId` is never imported); a key containing `classification` but
not `tenant` produces `Term{classification: "confidential"}` in `must_not`
when the value is exactly the string `confidential`, and
`Term{classification: v}` in `must` for any other value. -/
theorem parseConditionObject_heuristic (k : String) (v : JVal) :
    (jsIncludes k "tenant" = true →
      compileResidual (.obj [(k, v)]) =
        .error "ReferenceError: extractEntityId is not defined") ∧
    (jsIncludes k "tenant" = false → jsIncludes k "classification" = true →
      compileResidual (.obj [(k, v)]) =
        .ok (if isConfidentialStr v = true
             then ⟨[], [some (.term "classification" (.str "confidential"))], []⟩
             else ⟨[some (.term "classification" v)], [], []⟩)) := by
  have hroute : k ≠ "kind" → k ≠ "expr" → k ≠ "op" → k ≠ "operator" →
      compileResidual (.obj [(k, v)]) = parseConditionObject [(k, v)] emptyClauseSet := by
    intro hk1 hk2 hk3 hk4
    simp [compileResidual, compileResidualVal, strOf, getField, lookupField, truthyO,
      hk1, hk2, hk3, hk4]
  constructor
  · intro ht
    have hk1 : k ≠ "kind" := by rintro rfl; exact absurd ht (by decide)
    have hk2 : k ≠ "expr" := by rintro rfl; exact absurd ht (by decide)
    have hk3 : k ≠ "op" := by rintro rfl; exact absurd ht (by decide)
    have hk4 : k ≠ "operator" := by rintro rfl; exact absurd ht (by decide)
    rw [hroute hk1 hk2 hk3 hk4]
    simp [parseConditionObject, ht]
  · intro ht hc
    have hk1 : k ≠ "kind" := by rintro rfl; exact absurd hc (by decide)
    have hk2 : k ≠ "expr" := by rintro rfl; exact absurd hc (by decide)
    have hk3 : k ≠ "op" := by rintro rfl; exact absurd hc (by decide)
    have hk4 : k ≠ "operator" := by rintro rfl; exact absurd hc (by decide)
    rw [hroute hk1 hk2 hk3 hk4]
    simp only [parseConditionObject, ht, hc]
    split
    · rename_i hff
      simp at hff
    · by_cases hv : isConfidentialStr v = true <;> simp [hv, emptyClauseSet]

/-- Witness for the amended C10 at concrete keys and values. -/
theorem parseConditionObject_heuristic_witness :
    compileResidual (.obj [("a_tenant", .str "q")]) =
      .error "ReferenceError: extractEntityId is not defined" ∧
    compileResidual (.obj [("a_classification", .str "confidential")]) =
      .ok ⟨[], [some (.term "classification" (.str "confidential"))], []⟩ ∧
    compileResidual (.obj [("a_classification", .num 7)]) =
      .ok ⟨[some (.term "classification" (.num 7))], [], []⟩ := by
  refine ⟨?_, ?_, ?_⟩
  · exact (parseConditionObject_heuristic "a_tenant" (.str "q")).1 (by decide)
  · have h := (parseConditionObject_heuristic "a_classification"
      (.str "confidential")).2 (by decide) (by decide)
    simpa [isConfidentialStr] using h
  · have h := (parseConditionObject_heuristic "a_classification" (.num 7)).2
      (by decide) (by decide)
    simpa [isConfidentialStr] using h

/-- The `must` clauses one condition contributes to the assembled filter
(`[]` when the compile of that condition threw and was caught). -/
def condMust (c : JVal) : List (Option Clause) :=
  match compileResidual c with
  | .ok r => r.must
  | .error _ => []

/-- The `must_not` clauses one condition contributes. -/
def condMustNot (c : JVal) : List (Option Clause) :=
  match compileResidual c with
  | .ok r => r.must_not
  | .error _ => []

/-- The `should` clauses one condition contributes. -/
def condShould (c : JVal) : List (Option Clause) :=
  match compileResidual c with
  | .ok r => r.should
  | .error _ => []

theorem collectClauses_eq (conds : List JVal) :
    collectClauses conds = ((conds.map condMust).join, (conds.map condMustNot).join,
      (conds.map condShould).join) := by
  induction conds with
  | nil => simp [collectClauses]
  | cons c rest ih =>
    simp only [collectClauses, ih, List.map_cons, List.join_cons]
    cases hc : compileResidual c <;>
      simp [condMust, condMustNot, condShould, hc]

theorem ifSome_isSome {α : Type} (l : List α) :
    (if l.length > 0 then some l else none).isSome = true ↔ l ≠ [] := by
  split <;> rename_i h
  · exact iff_of_true rfl (List.length_pos.mp h)
  · exact iff_of_false (by simp) fun hne => h (List.length_pos.mpr hne)

theorem ifSome_eq_one {α : Type} (l : List α) :
    ((if l.length > 0 then some 1 else none : Option Nat) = some 1) ↔ l ≠ [] := by
  split <;> rename_i h
  · exact iff_of_true rfl (List.length_pos.mp h)
  · exact iff_of_false (by simp) fun hne => h (List.length_pos.mpr hne)

/-- Claim C4: the assembled bool query contains `must` iff the concatenated
`must` entries of the compiled conditions are non-empty, likewise for
`must_not` and `should`, and it carries `minimum_should_match = 1` iff the
`should` sequence is non-empty. -/
theorem buildOpenSearchFilter_keys (conds : List JVal) :
    ((buildOpenSearchFilter conds).bool.must.isSome ↔
      (conds.map condMust).join ≠ []) ∧
    ((buildOpenSearchFilter conds).bool.must_not.isSome ↔
      (conds.map condMustNot).join ≠ []) ∧
    ((buildOpenSearchFilter conds).bool.should.isSome ↔
      (conds.map condShould).join ≠ []) ∧
    ((buildOpenSearchFilter conds).bool.minimum_should_match = some 1 ↔
      (conds.map condShould).join ≠ []) := by
  unfold buildOpenSearchFilter
  rw [collectClauses_eq]
  exact ⟨ifSome_isSome _, ifSome_isSome _, ifSome_isSome _, ifSome_eq_one _⟩

theorem startsWithL_iff (pre : List Char) : ∀ s : List Char,
    startsWithL s pre = true ↔ ∃ t, s = pre ++ t := by
  induction pre with
  | nil => intro s; simp [startsWithL]
  | cons p ps ih =>
    intro s
    cases s with
    | nil => simp [startsWithL]
    | cons c s =>
      simp only [startsWithL, Bool.and_eq_true, decide_eq_true_eq, ih s]
      constructor
      · rintro ⟨rfl, t, rfl⟩
        exact ⟨t, rfl⟩
      · rintro ⟨t, ht⟩
        simp only [List.cons_append, List.cons.injEq] at ht
        exact ⟨ht.1, t, ht.2⟩

theorem stripResource_of_not_startsWith (a : String)
    (h : startsWithL a.data ("resource.".data) = false) : stripResource a = a := by
  unfold stripResource
  split
  · rename_i rest heq
    exfalso
    have : startsWithL a.data ("resource.".data) = true := by
      rw [heq]
      simp [startsWithL]
    rw [this] at h
    cases h
  · rfl

theorem stripResource_no_second (p : String)
    (h : startsWithL p.data ("resource.resource.".data) = false) :
    startsWithL (stripResource p).data ("resource.".data) = false := by
  unfold stripResource
  split
  · rename_i rest heq
    show startsWithL rest ("resource.".data) = false
    rcases Bool.eq_false_or_eq_true (startsWithL rest ("resource.".data)) with hx | hx
    · exfalso
      obtain ⟨t, rfl⟩ := (startsWithL_iff _ _).mp hx
      have hT : startsWithL p.data ("resource.resource.".data) = true := by
        apply (startsWithL_iff _ _).mpr
        exact ⟨t, by rw [heq]; rfl⟩
      rw [hT] at h
      cases h
    · exact hx
  · rename_i hpat
    rcases Bool.eq_false_or_eq_true (startsWithL p.data ("resource.".data)) with hx | hx
    · exfalso
      obtain ⟨t, ht⟩ := (startsWithL_iff _ _).mp hx
      exact absurd ht (hpat t)
    · exact hx

/-- Counterexample to claim C8 as stated: the mapper is not idempotent on
every path — stripping `resource.` is anchored but applied once per call, so
`resource.resource.tenant` maps to `resource.tenant` on the first
application and to `tenant_id` on the second. -/
theorem mapAttributeToField_not_idempotent_cex :
    mapAttributeToField (mapAttributeToField "resource.resource.tenant") ≠
      mapAttributeToField "resource.resource.tenant" := by decide

/-- Claim C8 as amended: `mapAttributeToField` is idempotent on every path
that does not begin with `resource.resource.` — in particular on each
already-mapped physical field name (`tenant_id`,
`customer_readers_team_id`, `employee_readers_team_id`, `doc_id`,
`classification`), which all map to themselves. -/
theorem mapAttributeToField_idempotent_unless_double (p : String)
    (h : startsWithL p.data ("resource.resource.".data) = false) :
    mapAttributeToField (mapAttributeToField p) = mapAttributeToField p := by
  have hf := stripResource_no_second p h
  have key : ∀ f : String, startsWithL f.data ("resource.".data) = false →
      mapAttributeToField (if f = "tenant" then "tenant_id"
        else if f = "customer_readers_team" then "customer_readers_team_id"
        else if f = "employee_readers_team" then "employee_readers_team_id"
        else if f = "doc" then "doc_id"
        else if f = "classification" then "classification" else f)
      = (if f = "tenant" then "tenant_id"
        else if f = "customer_readers_team" then "customer_readers_team_id"
        else if f = "employee_readers_team" then "employee_readers_team_id"
        else if f = "doc" then "doc_id"
        else if f = "classification" then "classification" else f) := by
    intro f hff
    by_cases h1 : f = "tenant"
    · simp only [if_pos h1]; decide
    by_cases h2 : f = "customer_readers_team"
    · simp only [if_neg h1, if_pos h2]; decide
    by_cases h3 : f = "employee_readers_team"
    · simp only [if_neg h1, if_neg h2, if_pos h3]; decide
    by_cases h4 : f = "doc"
    · simp only [if_neg h1, if_neg h2, if_neg h3, if_pos h4]; decide
    by_cases h5 : f = "classification"
    · simp only [if_neg h1, if_neg h2, if_neg h3, if_neg h4, if_pos h5]; decide
    simp only [if_neg h1, if_neg h2, if_neg h3, if_neg h4, if_neg h5]
    unfold mapAttributeToField
    rw [stripResource_of_not_startsWith f hff]
    simp [h1, h2, h3, h4, h5]
  have hrw : mapAttributeToField p = (if stripResource p = "tenant" then "tenant_id"
      else if stripResource p = "customer_readers_team" then "customer_readers_team_id"
      else if stripResource p = "employee_readers_team" then "employee_readers_team_id"
      else if stripResource p = "doc" then "doc_id"
      else if stripResource p = "classification" then "classification"
      else stripResource p) := rfl
  rw [hrw]
  exact key (stripResource p) hf

/-- Witness for the amended C8: the physical field name `tenant_id` (and a
once-prefixed logical path) both satisfy the hypothesis and map stably. -/
theorem mapAttributeToField_idempotent_witness :
    mapAttributeToField (mapAttributeToField "tenant_id") =
      mapAttributeToField "tenant_id" ∧
    mapAttributeToField (mapAttributeToField "resource.tenant") =
      mapAttributeToField "resource.tenant" :=
  ⟨mapAttributeToField_idempotent_unless_double "tenant_id" (by decide),
   mapAttributeToField_idempotent_unless_double "resource.tenant" (by decide)⟩
